import Mathlib

/-!
Verification of the Socket.io chat server (server.js and
server/utils/storage.js) against its natural-language specification.

The JavaScript source is shallowly embedded:
- JavaScript objects used as keyed maps become ordered association lists
  (`Assoc`); property assignment is `Assoc.upsert` (overwrite-in-place or
  append, matching JS insertion-order semantics), `delete` is
  `Assoc.eraseKey`.
- `Date.now()` and ISO timestamps are modelled by a `Nat` clock supplied to
  each handler.
- Asynchronous persistence (`storage.addMessage` returning a promise) is
  modelled by a boolean `persistOk` environment choice: the handler's
  `.then` branch runs when it is `true`, the `.catch` branch when `false`.
- Each socket handler is a pure function producing the successor state and
  an ordered trace of observable actions (persistence attempt, in-memory log
  append, acknowledgement callback, socket emissions).
-/

namespace ChatServer

/-- Ordered key/value pairs modelling a JavaScript object. -/
abbrev Assoc (α β : Type) := List (α × β)

namespace Assoc

/-- JS property assignment `obj[k] = v`: overwrite the first entry with the
key in place, otherwise append a new entry at the end (JS insertion order). -/
def upsert [BEq α] (k : α) (v : β) : Assoc α β → Assoc α β
  | [] => [(k, v)]
  | (k', v') :: t => if k' == k then (k, v) :: t else (k', v') :: upsert k v t

/-- JS `delete obj[k]`: remove the first entry with the key. -/
def eraseKey [BEq α] (k : α) : Assoc α β → Assoc α β
  | [] => []
  | (k', v') :: t => if k' == k then t else (k', v') :: eraseKey k t

/-- Modify the value stored at a key, if present. -/
def updateVal [BEq α] (k : α) (f : β → β) : Assoc α β → Assoc α β
  | [] => []
  | (k', v') :: t => if k' == k then (k', f v') :: t else (k', v') :: updateVal k f t

/-- The keys of the object, in insertion order. -/
def keys (l : Assoc α β) : List α := l.map Prod.fst

variable {α β : Type} [BEq α] [LawfulBEq α]

theorem lookup_cons_self (k : α) (v' : β) (t : Assoc α β) :
    List.lookup k ((k, v') :: t) = some v' := by
  simp [List.lookup_cons]

theorem lookup_cons_ne {k k' : α} (v' : β) (t : Assoc α β) (h : k ≠ k') :
    List.lookup k ((k', v') :: t) = List.lookup k t := by
  have hb : (k == k') = false := by simp [h]
  simp [List.lookup_cons, hb]

theorem upsert_cons_self (k k' : α) (v v' : β) (t : Assoc α β) (h : k' = k) :
    upsert k v ((k', v') :: t) = (k, v) :: t := by
  have hb : (k' == k) = true := by simp [h]
  simp [upsert, hb]

theorem upsert_cons_ne {k k' : α} (v v' : β) (t : Assoc α β) (h : k' ≠ k) :
    upsert k v ((k', v') :: t) = (k', v') :: upsert k v t := by
  have hb : (k' == k) = false := by simp [h]
  simp [upsert, hb]

theorem eraseKey_cons_self (k k' : α) (v' : β) (t : Assoc α β) (h : k' = k) :
    eraseKey k ((k', v') :: t) = t := by
  have hb : (k' == k) = true := by simp [h]
  simp [eraseKey, hb]

theorem eraseKey_cons_ne {k k' : α} (v' : β) (t : Assoc α β) (h : k' ≠ k) :
    eraseKey k ((k', v') :: t) = (k', v') :: eraseKey k t := by
  have hb : (k' == k) = false := by simp [h]
  simp [eraseKey, hb]

theorem updateVal_cons_self (k k' : α) (f : β → β) (v' : β) (t : Assoc α β)
    (h : k' = k) : updateVal k f ((k', v') :: t) = (k', f v') :: t := by
  have hb : (k' == k) = true := by simp [h]
  simp [updateVal, hb]

theorem updateVal_cons_ne {k k' : α} (f : β → β) (v' : β) (t : Assoc α β)
    (h : k' ≠ k) : updateVal k f ((k', v') :: t) = (k', v') :: updateVal k f t := by
  have hb : (k' == k) = false := by simp [h]
  simp [updateVal, hb]

theorem lookup_upsert_self (k : α) (v : β) (l : Assoc α β) :
    List.lookup k (upsert k v l) = some v := by
  induction l with
  | nil => simp [upsert, List.lookup]
  | cons p t ih =>
    obtain ⟨k', v'⟩ := p
    by_cases h : k' = k
    · rw [upsert_cons_self k k' v v' t h, lookup_cons_self]
    · rw [upsert_cons_ne v v' t h, lookup_cons_ne v' _ (fun e => h e.symm), ih]

theorem lookup_upsert_ne {k k₂ : α} (v : β) (l : Assoc α β) (h : k₂ ≠ k) :
    List.lookup k₂ (upsert k v l) = List.lookup k₂ l := by
  induction l with
  | nil =>
    have hb : (k₂ == k) = false := by simp [h]
    simp [upsert, List.lookup, hb]
  | cons p t ih =>
    obtain ⟨k', v'⟩ := p
    by_cases hk : k' = k
    · subst hk
      rw [upsert_cons_self k' k' v v' t rfl, lookup_cons_ne v t h,
        lookup_cons_ne v' t h]
    · rw [upsert_cons_ne v v' t hk]
      by_cases hq : k₂ = k'
      · subst hq
        rw [lookup_cons_self, lookup_cons_self]
      · rw [lookup_cons_ne _ _ hq, lookup_cons_ne v' t hq, ih]

theorem lookup_eq_none_of_not_mem_keys {k : α} {l : Assoc α β}
    (h : k ∉ keys l) : List.lookup k l = none := by
  induction l with
  | nil => rfl
  | cons p t ih =>
    obtain ⟨k', v'⟩ := p
    simp only [keys, List.map_cons, List.mem_cons] at h
    push_neg at h
    rw [lookup_cons_ne v' t h.1]
    exact ih h.2

theorem not_mem_keys_of_lookup_eq_none {k : α} {l : Assoc α β}
    (h : List.lookup k l = none) : k ∉ keys l := by
  induction l with
  | nil => simp [keys]
  | cons p t ih =>
    obtain ⟨k', v'⟩ := p
    by_cases hk : k = k'
    · subst hk
      rw [lookup_cons_self] at h
      exact absurd h (by simp)
    · rw [lookup_cons_ne v' t hk] at h
      simp only [keys, List.map_cons, List.mem_cons]
      push_neg
      exact ⟨hk, ih h⟩

theorem upsert_of_not_mem_keys {k : α} (v : β) {l : Assoc α β}
    (h : k ∉ keys l) : upsert k v l = l ++ [(k, v)] := by
  induction l with
  | nil => rfl
  | cons p t ih =>
    obtain ⟨k', v'⟩ := p
    simp only [keys, List.map_cons, List.mem_cons] at h
    push_neg at h
    rw [upsert_cons_ne v v' t (fun e => h.1 e.symm), ih h.2]
    rfl

theorem upsert_of_lookup_eq {k : α} {v : β} {l : Assoc α β}
    (h : List.lookup k l = some v) : upsert k v l = l := by
  induction l with
  | nil => simp [List.lookup] at h
  | cons p t ih =>
    obtain ⟨k', v'⟩ := p
    by_cases hk : k = k'
    · subst hk
      rw [lookup_cons_self] at h
      have hv : v' = v := by injection h
      rw [upsert_cons_self k k v v' t rfl, hv]
    · rw [lookup_cons_ne v' t hk] at h
      rw [upsert_cons_ne v v' t (fun e => hk e.symm), ih h]

theorem upsert_upsert (k : α) (v w : β) (l : Assoc α β) :
    upsert k v (upsert k w l) = upsert k v l := by
  induction l with
  | nil => simp [upsert]
  | cons p t ih =>
    obtain ⟨k', v'⟩ := p
    by_cases hk : k' = k
    · rw [upsert_cons_self k k' w v' t hk, upsert_cons_self k k v w t rfl,
        upsert_cons_self k k' v v' t hk]
    · rw [upsert_cons_ne w v' t hk, upsert_cons_ne v v' _ hk,
        upsert_cons_ne v v' t hk, ih]

theorem eraseKey_append_self {k : α} (v : β) {l : Assoc α β}
    (h : k ∉ keys l) : eraseKey k (l ++ [(k, v)]) = l := by
  induction l with
  | nil => simp [eraseKey]
  | cons p t ih =>
    obtain ⟨k', v'⟩ := p
    simp only [keys, List.map_cons, List.mem_cons] at h
    push_neg at h
    rw [List.cons_append, eraseKey_cons_ne v' _ (fun e => h.1 e.symm), ih h.2]

theorem lookup_eraseKey_ne {k k₂ : α} (l : Assoc α β) (h : k₂ ≠ k) :
    List.lookup k₂ (eraseKey k l) = List.lookup k₂ l := by
  induction l with
  | nil => rfl
  | cons p t ih =>
    obtain ⟨k', v'⟩ := p
    by_cases hk : k' = k
    · rw [eraseKey_cons_self k k' v' t hk, lookup_cons_ne v' t (hk ▸ h)]
    · rw [eraseKey_cons_ne v' t hk]
      by_cases hq : k₂ = k'
      · subst hq
        rw [lookup_cons_self, lookup_cons_self]
      · rw [lookup_cons_ne _ _ hq, lookup_cons_ne v' t hq, ih]

theorem lookup_eraseKey_self {k : α} {l : Assoc α β}
    (h : (keys l).Nodup) : List.lookup k (eraseKey k l) = none := by
  induction l with
  | nil => rfl
  | cons p t ih =>
    obtain ⟨k', v'⟩ := p
    simp only [keys, List.map_cons, List.nodup_cons] at h
    by_cases hk : k' = k
    · rw [eraseKey_cons_self k k' v' t hk]
      exact lookup_eq_none_of_not_mem_keys (hk ▸ h.1)
    · rw [eraseKey_cons_ne v' t hk, lookup_cons_ne v' _ (fun e => hk e.symm)]
      exact ih h.2

theorem keys_updateVal (k : α) (f : β → β) (l : Assoc α β) :
    keys (updateVal k f l) = keys l := by
  induction l with
  | nil => rfl
  | cons p t ih =>
    obtain ⟨k', v'⟩ := p
    by_cases hk : k' = k
    · rw [updateVal_cons_self k k' f v' t hk]
      simp [keys]
    · rw [updateVal_cons_ne f v' t hk]
      simp only [keys, List.map_cons]
      simp only [keys] at ih
      rw [ih]

theorem lookup_updateVal_self (k : α) (f : β → β) (l : Assoc α β) :
    List.lookup k (updateVal k f l) = (List.lookup k l).map f := by
  induction l with
  | nil => rfl
  | cons p t ih =>
    obtain ⟨k', v'⟩ := p
    by_cases hk : k' = k
    · subst hk
      rw [updateVal_cons_self k' k' f v' t rfl]
      rw [lookup_cons_self, lookup_cons_self]
      rfl
    · rw [updateVal_cons_ne f v' t hk]
      rw [lookup_cons_ne _ _ (fun e => hk e.symm),
        lookup_cons_ne v' t (fun e => hk e.symm), ih]

theorem lookup_updateVal_ne {k k₂ : α} (f : β → β) (l : Assoc α β) (h : k₂ ≠ k) :
    List.lookup k₂ (updateVal k f l) = List.lookup k₂ l := by
  induction l with
  | nil => rfl
  | cons p t ih =>
    obtain ⟨k', v'⟩ := p
    by_cases hk : k' = k
    · subst hk
      rw [updateVal_cons_self k' k' f v' t rfl]
      rw [lookup_cons_ne _ t h, lookup_cons_ne v' t h]
    · rw [updateVal_cons_ne f v' t hk]
      by_cases hq : k₂ = k'
      · subst hq
        rw [lookup_cons_self, lookup_cons_self]
      · rw [lookup_cons_ne _ _ hq, lookup_cons_ne v' t hq, ih]

theorem keys_upsert_of_mem {k : α} (v : β) {l : Assoc α β}
    (h : k ∈ keys l) : keys (upsert k v l) = keys l := by
  induction l with
  | nil => simp [keys] at h
  | cons p t ih =>
    obtain ⟨k', v'⟩ := p
    by_cases hk : k' = k
    · rw [upsert_cons_self k k' v v' t hk]
      simp [keys, hk]
    · rw [upsert_cons_ne v v' t hk]
      simp only [keys, List.map_cons, List.mem_cons] at h
      rcases h with h | h
      · exact absurd h.symm hk
      · simp only [keys, List.map_cons]
        simp only [keys] at ih
        rw [ih h]

theorem keys_upsert_nodup {k : α} (v : β) {l : Assoc α β}
    (h : (keys l).Nodup) : (keys (upsert k v l)).Nodup := by
  by_cases hm : k ∈ keys l
  · rw [keys_upsert_of_mem v hm]; exact h
  · rw [upsert_of_not_mem_keys v hm]
    simp only [keys, List.map_append, List.map_cons, List.map_nil]
    rw [List.nodup_append]
    refine ⟨h, List.nodup_singleton k, ?_⟩
    intro a ha hb
    simp only [List.mem_singleton] at hb
    subst hb
    exact hm ha

theorem keys_eraseKey_sublist (k : α) (l : Assoc α β) :
    (keys (eraseKey k l)).Sublist (keys l) := by
  induction l with
  | nil => simp [eraseKey, keys]
  | cons p t ih =>
    obtain ⟨k', v'⟩ := p
    by_cases hk : k' = k
    · rw [eraseKey_cons_self k k' v' t hk]
      exact List.sublist_cons_self _ _
    · rw [eraseKey_cons_ne v' t hk]
      exact List.Sublist.cons₂ _ ih

theorem keys_eraseKey_nodup {k : α} {l : Assoc α β}
    (h : (keys l).Nodup) : (keys (eraseKey k l)).Nodup :=
  h.sublist (keys_eraseKey_sublist k l)

theorem lookup_isSome_of_eraseKey {k k₂ : α} {l : Assoc α β}
    (hn : (keys l).Nodup)
    (h : (List.lookup k₂ (eraseKey k l)).isSome = true) :
    (List.lookup k₂ l).isSome = true := by
  by_cases hk : k₂ = k
  · subst hk
    rw [lookup_eraseKey_self hn] at h
    simp at h
  · rwa [lookup_eraseKey_ne l hk] at h

end Assoc

/-- A chat message as built by the server handlers (server.js).
`id` is `Date.now()` and `timestamp` the ISO string of the same clock, both
modelled by one `Nat` clock value. A stored message with a missing `roomId`
is modelled by `roomId = ""`: both are JS-falsy and the query path treats
them identically (`!m.roomId`). The body field is named `message` in the
source. A missing `reactions` object is modelled by the empty map, which the
reaction code treats the same way (it replaces a missing object by `{}`
before use). -/
structure Message where
  id : Nat
  sender : String
  senderId : String
  roomId : String
  timestamp : Nat
  message : String
  isPrivate : Bool := false
  file : Option String := none
  reactions : Assoc String (List String) := []
deriving DecidableEq

/-- The persisted store document (storage.js): messages, read receipts keyed
by message id then user id (value = read timestamp), and room names. -/
structure StoreData where
  messages : List Message := []
  readReceipts : Assoc String (Assoc String Nat) := []
  rooms : List String := ["general"]
deriving DecidableEq

/-- storage.js `addMessage`: push the message, then evict the oldest when the
log exceeds the cap of 100 (`data.messages.shift()`). -/
def addMessage (d : StoreData) (m : Message) : StoreData :=
  let msgs := d.messages ++ [m]
  { d with messages := if 100 < msgs.length then msgs.tail else msgs }

/-- storage.js `markMessageRead`: upsert the user's read timestamp under the
message id and return the message's receipt map. -/
def markMessageRead (d : StoreData) (messageId userId : String) (now : Nat) :
    StoreData × Assoc String Nat :=
  let cur := (List.lookup messageId d.readReceipts).getD []
  let cur' := Assoc.upsert userId now cur
  ({ d with readReceipts := Assoc.upsert messageId cur' d.readReceipts }, cur')

/-- Replace the first element satisfying `p` (JS `Array.prototype.find`
followed by in-place mutation of the found object). -/
def updateFirst (p : α → Bool) (f : α → α) : List α → List α
  | [] => []
  | x :: t => if p x then f x :: t else x :: updateFirst p f t

/-- The predicate storage.js uses to locate a message:
`String(m.id) === String(messageId)`. -/
def idMatches (messageId : String) (m : Message) : Bool :=
  toString m.id == messageId

/-- storage.js `addReaction`: find the message, add the user to the
reaction's user list unless already present, and write back. A missing
message is silently ignored. -/
def addReaction (d : StoreData) (messageId userId reaction : String) : StoreData :=
  match d.messages.find? (idMatches messageId) with
  | none => d
  | some m =>
    let cur := (List.lookup reaction m.reactions).getD []
    let cur' := if cur.contains userId then cur else cur ++ [userId]
    let rs' := Assoc.upsert reaction cur' m.reactions
    { d with messages :=
        updateFirst (idMatches messageId) (fun x => { x with reactions := rs' }) d.messages }

/-- storage.js `removeReaction`: find the message; if it has an entry for the
reaction, filter the user out of its list and delete the entry when the list
becomes empty, then write back. Missing message or missing entry: no-op. -/
def removeReaction (d : StoreData) (messageId userId reaction : String) : StoreData :=
  match d.messages.find? (idMatches messageId) with
  | none => d
  | some m =>
    match List.lookup reaction m.reactions with
    | none => d
    | some l =>
      let l' := l.filter (fun u => u != userId)
      let rs' := if l'.isEmpty then Assoc.eraseKey reaction m.reactions
                 else Assoc.upsert reaction l' m.reactions
      { d with messages :=
          updateFirst (idMatches messageId) (fun x => { x with reactions := rs' }) d.messages }

/-! ### The GET /api/messages query engine (server.js) -/

/-- Case-insensitive JS `String.prototype.includes` on lower-cased strings:
substring containment. -/
def strIncludes (hay needle : String) : Bool :=
  decide (needle.toList <:+: hay.toList)

/-- The server's roomId filter:
`m.roomId === roomId || (!m.roomId && roomId === "general")`
(a missing/empty `roomId` on a stored message counts as the default room). -/
def matchesRoom (roomId : String) (m : Message) : Bool :=
  m.roomId == roomId || (m.roomId == "" && roomId == "general")

/-- The server's search filter: case-insensitive substring of the body or of
the sender name. -/
def matchesSearch (search : String) (m : Message) : Bool :=
  strIncludes m.message.toLower search.toLower ||
  strIncludes m.sender.toLower search.toLower

/-- Descending-by-timestamp comparison used by
`filteredMsgs.sort((a, b) => new Date(b.timestamp) - new Date(a.timestamp))`. -/
def byTimestampDesc (a b : Message) : Prop := b.timestamp ≤ a.timestamp

instance : DecidableRel byTimestampDesc := fun a b => Nat.decLe b.timestamp a.timestamp

instance : IsTotal Message byTimestampDesc :=
  ⟨fun a b => Nat.le_total b.timestamp a.timestamp⟩

instance : IsTrans Message byTimestampDesc :=
  ⟨fun _ _ _ hab hbc => Nat.le_trans hbc hab⟩

structure QueryResult where
  messages : List Message
  total : Nat
  hasMore : Bool
deriving DecidableEq

/-- The GET /api/messages handler: filter to the requested room (skipped when
`roomId` is JS-falsy, i.e. empty), filter by the optional search string
(skipped when falsy), sort descending by timestamp (modelled by a stable
insertion sort), slice `[offset, offset+limit)` and report
`hasMore = offset + limit < filteredTotal`. -/
def queryMessages (msgs : List Message) (roomId : String) (lim off : Nat)
    (search : Option String) : QueryResult :=
  let f1 := if roomId == "" then msgs else msgs.filter (matchesRoom roomId)
  let f2 := match search with
    | none => f1
    | some s => if s == "" then f1 else f1.filter (matchesSearch s)
  let sorted := f2.insertionSort byTimestampDesc
  { messages := (sorted.drop off).take lim
    total := f2.length
    hasMore := decide (off + lim < f2.length) }

/-! ### Server-side session/room state and the socket handlers (server.js) -/

/-- A session entry in the `users` map: `{ username, id: socket.id, room }`.
The `id` field always equals the map key (the connection id) and is omitted. -/
structure User where
  username : String
  room : String
deriving DecidableEq

/-- The server's global mutable state: `users` (connection id → session),
`rooms` (room name → member map, mirroring socket.io room membership),
`typingUsers`, and the in-memory `messages` mirror of the retained log. -/
structure ServerState where
  users : Assoc String User := []
  rooms : Assoc String (Assoc String User) := []
  typingUsers : Assoc String String := []
  messages : List Message := []
deriving DecidableEq

/-- JS `x || d` on strings: the default replaces the falsy empty string. -/
def jsOr (s d : String) : String := if s == "" then d else s

/-- One emitted socket.io event carrying a message. `ioTo room` reaches every
member of the room; `socketTo sender target` is `socket.to(target).emit` with
a connection id as target: it reaches exactly that connection, the emitting
socket excluded; `socketSelf sender` is `socket.emit`, reaching only the
emitting connection. -/
inductive Emission where
  | ioTo (room : String) (event : String) (m : Message)
  | socketTo (senderId target : String) (event : String) (m : Message)
  | socketSelf (senderId : String) (event : String) (m : Message)
deriving DecidableEq

/-- A delivery acknowledgement sent through the `send_message` callback. -/
inductive Ack where
  | success (messageId : Nat)
  | failure (error : String)
deriving DecidableEq

/-- One observable action of a handler, in execution order: the persistence
attempt, the in-memory log append, the acknowledgement callback, or a socket
emission. -/
inductive Action where
  | persistAttempt (m : Message)
  | appendLog (m : Message)
  | ack (a : Ack)
  | emit (e : Emission)
deriving DecidableEq

/-- The member connection ids of a room (keys of `rooms[room]`). -/
def roomMembers (st : ServerState) (room : String) : List String :=
  Assoc.keys ((List.lookup room st.rooms).getD [])

/-- The connections a single emission reaches. -/
def recipients (st : ServerState) : Emission → List String
  | .ioTo room _ _ => roomMembers st room
  | .socketTo sender target _ _ => if target == sender then [] else [target]
  | .socketSelf sender _ _ => [sender]

/-- The emissions contained in a handler trace, in order. -/
def emittedEvents (tr : List Action) : List Emission :=
  tr.filterMap fun a => match a with
    | .emit e => some e
    | _ => none

/-- All connections reached by the emissions of a trace. -/
def traceRecipients (st : ServerState) (tr : List Action) : List String :=
  (emittedEvents tr).flatMap (recipients st)

/-- `messages.push(m); if (messages.length > 100) messages.shift()` — the
in-memory mirror of the retained log. -/
def pushCap (log : List Message) (m : Message) : List Message :=
  let l := log ++ [m]
  if 100 < l.length then l.tail else l

/-- The message the `send_message` handler builds: every identity field comes
from server state (`users[socket.id]`, `socket.id`, the clock); only the body
comes from the client payload. `sender` is `user.username || "Anonymous"`. -/
def builtTextMessage (u : User) (sid : String) (now : Nat) (body : String) : Message :=
  { id := now, sender := jsOr u.username "Anonymous", senderId := sid,
    roomId := u.room, timestamp := now, message := body }

/-- The message the `send_file` handler builds (`file: fileData`,
`message: "Shared a file: " + fileData.filename`). -/
def builtFileMessage (u : User) (sid : String) (now : Nat) (filename : String) : Message :=
  { id := now, sender := jsOr u.username "Anonymous", senderId := sid,
    roomId := u.room, timestamp := now,
    message := "Shared a file: " ++ filename, file := some filename }

/-- The message the `private_message` handler builds: `isPrivate: true`, and
`roomId` is the sender's current room. -/
def builtPrivateMessage (u : User) (sid : String) (now : Nat) (body : String) : Message :=
  { id := now, sender := jsOr u.username "Anonymous", senderId := sid,
    roomId := u.room, timestamp := now, message := body, isPrivate := true }

/-- The result of running one handler: successor server state, successor
store, and the ordered trace of observable actions. -/
structure HandlerOut where
  st : ServerState
  store : StoreData
  trace : List Action
deriving DecidableEq

/-- The `send_message` handler. Without a session it only acknowledges
failure. With one, it builds the message and persists it; the `.then`
branch (persistOk) appends to the in-memory log, acknowledges success with
the message id, then broadcasts `receive_message` to the sender's room; the
`.catch` branch acknowledges failure and emits nothing. -/
def sendMessageHandler (st : ServerState) (store : StoreData) (sid : String)
    (body : String) (now : Nat) (persistOk : Bool) : HandlerOut :=
  match List.lookup sid st.users with
  | none => { st := st, store := store, trace := [.ack (.failure "Not authenticated")] }
  | some u =>
    let msg := builtTextMessage u sid now body
    if persistOk then
      { st := { st with messages := pushCap st.messages msg }
        store := addMessage store msg
        trace := [.persistAttempt msg, .appendLog msg, .ack (.success msg.id),
                  .emit (.ioTo u.room "receive_message" msg)] }
    else
      { st := st, store := store
        trace := [.persistAttempt msg, .ack (.failure "Failed to persist message")] }

/-- The `send_file` handler. The `receive_message` broadcast sits outside the
persistence promise chain: it runs synchronously, before (and regardless of
whether) the asynchronous persistence settles, so it appears in the trace
directly after the persistence attempt in both outcomes. -/
def sendFileHandler (st : ServerState) (store : StoreData) (sid : String)
    (filename : String) (now : Nat) (persistOk : Bool) : HandlerOut :=
  match List.lookup sid st.users with
  | none => { st := st, store := store, trace := [] }
  | some u =>
    let msg := builtFileMessage u sid now filename
    if persistOk then
      { st := { st with messages := pushCap st.messages msg }
        store := addMessage store msg
        trace := [.persistAttempt msg, .emit (.ioTo u.room "receive_message" msg),
                  .appendLog msg] }
    else
      { st := st, store := store
        trace := [.persistAttempt msg, .emit (.ioTo u.room "receive_message" msg)] }

/-- The `private_message` handler. Delivery (`socket.to(to)` plus
`socket.emit`) also sits outside the persistence promise chain and happens in
both outcomes. -/
def privateMessageHandler (st : ServerState) (store : StoreData) (sid toId : String)
    (body : String) (now : Nat) (persistOk : Bool) : HandlerOut :=
  match List.lookup sid st.users with
  | none => { st := st, store := store, trace := [] }
  | some u =>
    let msg := builtPrivateMessage u sid now body
    if persistOk then
      { st := { st with messages := pushCap st.messages msg }
        store := addMessage store msg
        trace := [.persistAttempt msg,
                  .emit (.socketTo sid toId "private_message" msg),
                  .emit (.socketSelf sid "private_message" msg),
                  .appendLog msg] }
    else
      { st := st, store := store
        trace := [.persistAttempt msg,
                  .emit (.socketTo sid toId "private_message" msg),
                  .emit (.socketSelf sid "private_message" msg)] }

/-- Chat.jsx `handleSendMessage`: the client emits `send_message` only when
`message.trim()` is truthy; the (untrimmed) message is sent, otherwise
nothing is emitted. -/
def clientSendAttempt (input : String) : Option String :=
  if input.trim == "" then none else some input

/-! ### The session/room lifecycle state machine (user_join, switch_room,
disconnect) -/

/-- The connection events that mutate the session registry and room
directory. -/
inductive Ev where
  | userJoin (sid username room : String)
  | switchRoom (sid newRoom : String)
  | disconnect (sid : String)
deriving DecidableEq

/-- One step of the server's session/room state machine, translated from the
`user_join`, `switch_room` and `disconnect` handlers. `user_join` installs
the session and inserts into the room's member map without removing any
previous membership. `switch_room` removes the old-room membership, updates
the session's room and inserts into the new room. `disconnect` removes the
current room membership, the session and the typing entry. (`delete` on a
missing `rooms[room]` object, which would throw in JS, is modelled as a
no-op; it is unreachable from states where every session's room exists.) -/
def step (st : ServerState) : Ev → ServerState
  | .userJoin sid uname room =>
    let u : User := { username := uname, room := room }
    { st with
      users := Assoc.upsert sid u st.users
      rooms := Assoc.upsert room
        (Assoc.upsert sid u ((List.lookup room st.rooms).getD [])) st.rooms }
  | .switchRoom sid newRoom =>
    match List.lookup sid st.users with
    | none => st
    | some u =>
      let rooms1 := Assoc.updateVal u.room (Assoc.eraseKey sid) st.rooms
      let u' := { u with room := newRoom }
      { st with
        users := Assoc.upsert sid u' st.users
        rooms := Assoc.upsert newRoom
          (Assoc.upsert sid u' ((List.lookup newRoom rooms1).getD [])) rooms1 }
  | .disconnect sid =>
    match List.lookup sid st.users with
    | none =>
      { st with
        users := Assoc.eraseKey sid st.users
        typingUsers := Assoc.eraseKey sid st.typingUsers }
    | some u =>
      { st with
        rooms := Assoc.updateVal u.room (Assoc.eraseKey sid) st.rooms
        users := Assoc.eraseKey sid st.users
        typingUsers := Assoc.eraseKey sid st.typingUsers }

/-- Run a sequence of connection events from the empty initial state. -/
def run (evs : List Ev) : ServerState := evs.foldl step {}

/-- Whether a connection id is in a room's member map. -/
def memberOf (st : ServerState) (room sid : String) : Bool :=
  (List.lookup sid ((List.lookup room st.rooms).getD [])).isSome

/-- A `user_join` from a connection that already holds a session (the code
does not guard against this) is the one event that breaks the one-room
invariant; traces are well-behaved when each `user_join` comes from a
connection without a session. -/
def joinFresh (st : ServerState) : Ev → Bool
  | .userJoin sid _ _ => (List.lookup sid st.users).isNone
  | _ => true

/-- All `user_join` events in the trace are by connections without a live
session at that point. -/
def goodFrom (st : ServerState) : List Ev → Bool
  | [] => true
  | e :: t => joinFresh st e && goodFrom (step st e) t

/-! ### The raw object-spread semantics of the send_message build
(`{...messageData, id, sender, senderId, roomId, timestamp}`) -/

/-- The message object built by `send_message` at the JS object level, generic
in the payload's value type: spread the client payload first, then assign the
five server-stamped fields in source order, each overriding any same-named
payload field. -/
def builtMessageObj {V : Type} (payload : Assoc String V)
    (idv senderv senderIdv roomIdv tsv : V) : Assoc String V :=
  Assoc.upsert "timestamp" tsv
    (Assoc.upsert "roomId" roomIdv
      (Assoc.upsert "senderId" senderIdv
        (Assoc.upsert "sender" senderv
          (Assoc.upsert "id" idv payload))))

/-- The empty persisted store (the `DEFAULT` document of storage.js). -/
def emptyStore : StoreData := {}

/-! ### Claim theorems -/

theorem foldl_addMessage_messages (ms : List Message) :
    ∀ d : StoreData, d.messages.length ≤ 100 →
      (ms.foldl addMessage d).messages =
        (d.messages ++ ms).drop (d.messages.length + ms.length - 100) := by
  induction ms with
  | nil =>
    intro d hd
    have hz : d.messages.length - 100 = 0 := by omega
    simp [hz]
  | cons m t ih =>
    intro d hd
    rw [List.foldl_cons]
    by_cases hcap : 100 < (d.messages ++ [m]).length
    · have hlen : d.messages.length = 100 := by
        simp [List.length_append] at hcap; omega
      have hstep : (addMessage d m).messages = (d.messages ++ [m]).tail := by
        show (if 100 < (d.messages ++ [m]).length then (d.messages ++ [m]).tail
              else d.messages ++ [m]) = (d.messages ++ [m]).tail
        rw [if_pos hcap]
      have htl : (addMessage d m).messages.length ≤ 100 := by
        rw [hstep, List.length_tail]
        simp [List.length_append, hlen]
      have h := ih (addMessage d m) htl
      rw [h, hstep]
      have hcount : (d.messages ++ [m]).tail.length + t.length - 100 = t.length := by
        rw [List.length_tail]
        simp [List.length_append, hlen]
      rw [hcount]
      rw [← List.drop_one]
      rw [← List.drop_append_of_le_length (by simp [List.length_append, hlen])]
      rw [List.drop_drop]
      have h1 : (d.messages ++ [m]) ++ t = d.messages ++ (m :: t) := by
        rw [List.append_assoc]; rfl
      have h2 : d.messages.length + (m :: t).length - 100 = 1 + t.length := by
        simp [List.length_cons, hlen]; omega
      rw [h1, h2]
    · have hstep : (addMessage d m).messages = d.messages ++ [m] := by
        show (if 100 < (d.messages ++ [m]).length then (d.messages ++ [m]).tail
              else d.messages ++ [m]) = d.messages ++ [m]
        rw [if_neg hcap]
      have htl : (addMessage d m).messages.length ≤ 100 := by
        rw [hstep]
        simp only [List.length_append, List.length_cons, List.length_nil] at hcap ⊢
        omega
      have h := ih (addMessage d m) htl
      rw [h, hstep]
      have h1 : (d.messages ++ [m]) ++ t = d.messages ++ (m :: t) := by
        rw [List.append_assoc]; rfl
      have h2 : (d.messages ++ [m]).length + t.length - 100 =
          d.messages.length + (m :: t).length - 100 := by
        simp [List.length_append, List.length_cons]; omega
      rw [h1, h2]

/-- C3: starting from an empty store, after N successful `addMessage` calls
the retained message log is exactly the most recent `min N 100` messages of
the insertion sequence, in oldest-first order (so its length is `min N 100`,
and every insertion past the cap of 100 evicted exactly the oldest entry). -/
theorem addMessage_retainedLog (ms : List Message) :
    (ms.foldl addMessage emptyStore).messages = ms.drop (ms.length - 100) ∧
    (ms.foldl addMessage emptyStore).messages.length = min ms.length 100 := by
  have h := foldl_addMessage_messages ms emptyStore (by simp [emptyStore])
  have h0 : emptyStore.messages = [] := rfl
  rw [h0] at h
  simp only [List.nil_append, List.length_nil, Nat.zero_add] at h
  refine ⟨h, ?_⟩
  rw [h, List.length_drop]
  omega

theorem count_keys_upsert_of_nodup {k : String} {β : Type} (v : β)
    {l : Assoc String β} (h : (Assoc.keys l).Nodup) :
    (Assoc.keys (Assoc.upsert k v l)).count k = 1 := by
  by_cases hm : k ∈ Assoc.keys l
  · rw [Assoc.keys_upsert_of_mem v hm]
    exact List.count_eq_one_of_mem h hm
  · rw [Assoc.upsert_of_not_mem_keys v hm]
    simp only [Assoc.keys, List.map_append, List.map_cons, List.map_nil]
    rw [List.count_append]
    simp only [Assoc.keys] at hm
    rw [List.count_eq_zero_of_not_mem hm]
    simp

/-- C6: marking the same message read twice by the same user leaves exactly
one receipt entry for that user, holding the timestamp of the later call
(last-write-wins upsert, no duplication). The hypothesis models the JSON
object invariant that the stored receipt map has no duplicate keys. -/
theorem markRead_lastWriteWins (d : StoreData) (mid uid : String) (t1 t2 : Nat)
    (hw : (Assoc.keys ((List.lookup mid d.readReceipts).getD [])).Nodup) :
    ∃ r, List.lookup mid
        ((markMessageRead (markMessageRead d mid uid t1).1 mid uid t2).1).readReceipts
        = some r ∧
      List.lookup uid r = some t2 ∧ (Assoc.keys r).count uid = 1 := by
  set r0 := (List.lookup mid d.readReceipts).getD [] with hr0
  have h1 : (markMessageRead d mid uid t1).1.readReceipts =
      Assoc.upsert mid (Assoc.upsert uid t1 r0) d.readReceipts := rfl
  have hcur : (List.lookup mid (markMessageRead d mid uid t1).1.readReceipts).getD []
      = Assoc.upsert uid t1 r0 := by
    rw [h1, Assoc.lookup_upsert_self]
    rfl
  refine ⟨Assoc.upsert uid t2 r0, ?_, ?_, ?_⟩
  · show List.lookup mid (Assoc.upsert mid
        (Assoc.upsert uid t2 ((List.lookup mid
          (markMessageRead d mid uid t1).1.readReceipts).getD []))
        (markMessageRead d mid uid t1).1.readReceipts) = _
    rw [hcur, Assoc.upsert_upsert, Assoc.lookup_upsert_self]
  · rw [Assoc.lookup_upsert_self]
  · exact count_keys_upsert_of_nodup t2 hw

/-- Witness for C6 at a concrete input. -/
theorem markRead_lastWriteWins_witness :
    ∃ r, List.lookup "1"
        ((markMessageRead (markMessageRead emptyStore "1" "u1" 3).1 "1" "u1" 7).1).readReceipts
        = some r ∧
      List.lookup "u1" r = some 7 ∧ (Assoc.keys r).count "u1" = 1 :=
  markRead_lastWriteWins emptyStore "1" "u1" 3 7 (by decide)

theorem builtMessageObj_fields {V : Type} (p : Assoc String V) (a b c d e : V) :
    List.lookup "id" (builtMessageObj p a b c d e) = some a ∧
    List.lookup "sender" (builtMessageObj p a b c d e) = some b ∧
    List.lookup "senderId" (builtMessageObj p a b c d e) = some c ∧
    List.lookup "roomId" (builtMessageObj p a b c d e) = some d ∧
    List.lookup "timestamp" (builtMessageObj p a b c d e) = some e := by
  unfold builtMessageObj
  refine ⟨?_, ?_, ?_, ?_, ?_⟩ <;>
    simp [Assoc.lookup_upsert_ne, Assoc.lookup_upsert_self]

/-- C10: the `id`, `sender`, `senderId`, `roomId` and `timestamp` fields of
the object `{...messageData, id, sender, senderId, roomId, timestamp}` built
by `send_message` are determined solely by the server-side arguments: each
equals the server-stamped value for every payload, so any two client
payloads produce messages agreeing on all five fields and a client cannot
forge identity, room or timestamp through the payload. -/
theorem sendMessage_identity_not_forgeable {V : Type} (p1 p2 : Assoc String V)
    (idv senderv senderIdv roomIdv tsv : V) :
    List.lookup "id" (builtMessageObj p1 idv senderv senderIdv roomIdv tsv) = some idv ∧
    List.lookup "sender" (builtMessageObj p1 idv senderv senderIdv roomIdv tsv) = some senderv ∧
    List.lookup "senderId" (builtMessageObj p1 idv senderv senderIdv roomIdv tsv) = some senderIdv ∧
    List.lookup "roomId" (builtMessageObj p1 idv senderv senderIdv roomIdv tsv) = some roomIdv ∧
    List.lookup "timestamp" (builtMessageObj p1 idv senderv senderIdv roomIdv tsv) = some tsv ∧
    List.lookup "id" (builtMessageObj p1 idv senderv senderIdv roomIdv tsv) =
      List.lookup "id" (builtMessageObj p2 idv senderv senderIdv roomIdv tsv) ∧
    List.lookup "sender" (builtMessageObj p1 idv senderv senderIdv roomIdv tsv) =
      List.lookup "sender" (builtMessageObj p2 idv senderv senderIdv roomIdv tsv) ∧
    List.lookup "senderId" (builtMessageObj p1 idv senderv senderIdv roomIdv tsv) =
      List.lookup "senderId" (builtMessageObj p2 idv senderv senderIdv roomIdv tsv) ∧
    List.lookup "roomId" (builtMessageObj p1 idv senderv senderIdv roomIdv tsv) =
      List.lookup "roomId" (builtMessageObj p2 idv senderv senderIdv roomIdv tsv) ∧
    List.lookup "timestamp" (builtMessageObj p1 idv senderv senderIdv roomIdv tsv) =
      List.lookup "timestamp" (builtMessageObj p2 idv senderv senderIdv roomIdv tsv) := by
  obtain ⟨a1, b1, c1, d1, e1⟩ := builtMessageObj_fields p1 idv senderv senderIdv roomIdv tsv
  obtain ⟨a2, b2, c2, d2, e2⟩ := builtMessageObj_fields p2 idv senderv senderIdv roomIdv tsv
  exact ⟨a1, b1, c1, d1, e1, a1.trans a2.symm, b1.trans b2.symm,
    c1.trans c2.symm, d1.trans d2.symm, e1.trans e2.symm⟩

/-- A small concrete reachable server state: one connection "s1"
("alice") joined to room "general". -/
def stEx : ServerState :=
  { users := [("s1", { username := "alice", room := "general" })]
    rooms := [("general", [("s1", { username := "alice", room := "general" })])]
    typingUsers := []
    messages := [] }

/-- C1: for a `send_message` from a connection with a session, on persistence
success the handler appends the built message to the bounded retained log
(evicting the oldest entry if over the cap), then acknowledges
`{success: true, messageId}` to the sender, then broadcasts the full message
to every member of the sender's current room (the sender included whenever
it is a member of that room, as it is in every reachable state); on
persistence failure it acknowledges failure and emits nothing, leaving the
store unchanged. -/
theorem sendMessage_pipeline (st : ServerState) (store : StoreData)
    (sid body : String) (now : Nat) (u : User)
    (hu : List.lookup sid st.users = some u) :
    (sendMessageHandler st store sid body now true).store.messages =
      (if 100 < (store.messages ++ [builtTextMessage u sid now body]).length
       then (store.messages ++ [builtTextMessage u sid now body]).tail
       else store.messages ++ [builtTextMessage u sid now body]) ∧
    (sendMessageHandler st store sid body now true).trace =
      [.persistAttempt (builtTextMessage u sid now body),
       .appendLog (builtTextMessage u sid now body),
       .ack (.success (builtTextMessage u sid now body).id),
       .emit (.ioTo u.room "receive_message" (builtTextMessage u sid now body))] ∧
    (sendMessageHandler st store sid body now true).st.messages =
      pushCap st.messages (builtTextMessage u sid now body) ∧
    traceRecipients st (sendMessageHandler st store sid body now true).trace =
      roomMembers st u.room ∧
    (sid ∈ roomMembers st u.room →
      sid ∈ traceRecipients st (sendMessageHandler st store sid body now true).trace) ∧
    (sendMessageHandler st store sid body now false).trace =
      [.persistAttempt (builtTextMessage u sid now body),
       .ack (.failure "Failed to persist message")] ∧
    emittedEvents (sendMessageHandler st store sid body now false).trace = [] ∧
    (sendMessageHandler st store sid body now false).store = store := by
  have hsucc : sendMessageHandler st store sid body now true =
      { st := { st with messages := pushCap st.messages (builtTextMessage u sid now body) }
        store := addMessage store (builtTextMessage u sid now body)
        trace := [.persistAttempt (builtTextMessage u sid now body),
                  .appendLog (builtTextMessage u sid now body),
                  .ack (.success (builtTextMessage u sid now body).id),
                  .emit (.ioTo u.room "receive_message" (builtTextMessage u sid now body))] } := by
    unfold sendMessageHandler
    rw [hu]
    rfl
  have hfail : sendMessageHandler st store sid body now false =
      { st := st, store := store
        trace := [.persistAttempt (builtTextMessage u sid now body),
                  .ack (.failure "Failed to persist message")] } := by
    unfold sendMessageHandler
    rw [hu]
    rfl
  refine ⟨?_, ?_, ?_, ?_, ?_, ?_, ?_, ?_⟩
  · rw [hsucc]; rfl
  · rw [hsucc]
  · rw [hsucc]
  · rw [hsucc]
    simp [traceRecipients, emittedEvents, recipients]
  · intro hm
    rw [hsucc]
    simpa [traceRecipients, emittedEvents, recipients] using hm
  · rw [hfail]
  · rw [hfail]; rfl
  · rw [hfail]

/-- Witness for C1 at a concrete state: the sender is a member of its room
and receives the broadcast. -/
theorem sendMessage_pipeline_witness :
    "s1" ∈ roomMembers stEx "general" ∧
    "s1" ∈ traceRecipients stEx (sendMessageHandler stEx emptyStore "s1" "hi" 5 true).trace :=
  ⟨by decide,
   (sendMessage_pipeline stEx emptyStore "s1" "hi" 5
      { username := "alice", room := "general" } (by decide)).2.2.2.2.1 (by decide)⟩

/-- C2 counterexample: a `send_file` whose persistence fails (the store is
unchanged) still broadcasts `receive_message` carrying the message to the
sender's room, because the emit sits outside the persistence promise chain. -/
theorem persistBeforeBroadcast_counterexample :
    (sendFileHandler stEx emptyStore "s1" "doc.txt" 5 false).store = emptyStore ∧
    emittedEvents (sendFileHandler stEx emptyStore "s1" "doc.txt" 5 false).trace =
      [.ioTo "general" "receive_message"
        (builtFileMessage { username := "alice", room := "general" } "s1" 5 "doc.txt")] :=
  ⟨rfl, rfl⟩

/-- C2 amended: the persistence-before-broadcast invariant holds for
`send_message` (no event is emitted unless persistence succeeded), but not
for `send_file` or `private_message`: both emit the message even when
persistence fails. -/
theorem persistBeforeBroadcast_amended :
    (∀ (st : ServerState) (store : StoreData) (sid body : String) (now : Nat)
        (ok : Bool) (e : Emission),
      e ∈ emittedEvents (sendMessageHandler st store sid body now ok).trace → ok = true) ∧
    (∀ (st : ServerState) (store : StoreData) (sid fn : String) (now : Nat) (u : User),
      List.lookup sid st.users = some u →
      emittedEvents (sendFileHandler st store sid fn now false).trace =
        [.ioTo u.room "receive_message" (builtFileMessage u sid now fn)]) ∧
    (∀ (st : ServerState) (store : StoreData) (sid toId body : String) (now : Nat) (u : User),
      List.lookup sid st.users = some u →
      emittedEvents (privateMessageHandler st store sid toId body now false).trace =
        [.socketTo sid toId "private_message" (builtPrivateMessage u sid now body),
         .socketSelf sid "private_message" (builtPrivateMessage u sid now body)]) := by
  refine ⟨?_, ?_, ?_⟩
  · intro st store sid body now ok e he
    cases ok with
    | true => rfl
    | false =>
      exfalso
      cases hl : List.lookup sid st.users with
      | none =>
        have hh : sendMessageHandler st store sid body now false =
            { st := st, store := store, trace := [.ack (.failure "Not authenticated")] } := by
          unfold sendMessageHandler
          rw [hl]
        rw [hh] at he
        simp [emittedEvents] at he
      | some u =>
        have hh : sendMessageHandler st store sid body now false =
            { st := st, store := store
              trace := [.persistAttempt (builtTextMessage u sid now body),
                        .ack (.failure "Failed to persist message")] } := by
          unfold sendMessageHandler
          rw [hl]
          rfl
        rw [hh] at he
        simp [emittedEvents] at he
  · intro st store sid fn now u hu
    have hh : sendFileHandler st store sid fn now false =
        { st := st, store := store
          trace := [.persistAttempt (builtFileMessage u sid now fn),
                    .emit (.ioTo u.room "receive_message" (builtFileMessage u sid now fn))] } := by
      unfold sendFileHandler
      rw [hu]
      rfl
    rw [hh]
    rfl
  · intro st store sid toId body now u hu
    have hh : privateMessageHandler st store sid toId body now false =
        { st := st, store := store
          trace := [.persistAttempt (builtPrivateMessage u sid now body),
                    .emit (.socketTo sid toId "private_message" (builtPrivateMessage u sid now body)),
                    .emit (.socketSelf sid "private_message" (builtPrivateMessage u sid now body))] } := by
      unfold privateMessageHandler
      rw [hu]
      rfl
    rw [hh]
    rfl

/-- Witness for the amended C2 at a concrete input. -/
theorem persistBeforeBroadcast_amended_witness :
    emittedEvents (sendFileHandler stEx emptyStore "s1" "f.txt" 9 false).trace =
      [.ioTo "general" "receive_message"
        (builtFileMessage { username := "alice", room := "general" } "s1" 9 "f.txt")] :=
  persistBeforeBroadcast_amended.2.1 stEx emptyStore "s1" "f.txt" 9
    { username := "alice", room := "general" } (by decide)

/-- C7 counterexample: a `send_message` with an empty body from a connection
with a session is persisted to the store and broadcast to the room — the
server performs no empty-body validation. -/
theorem emptyBody_counterexample :
    (sendMessageHandler stEx emptyStore "s1" "" 5 true).store.messages =
      [builtTextMessage { username := "alice", room := "general" } "s1" 5 ""] ∧
    emittedEvents (sendMessageHandler stEx emptyStore "s1" "" 5 true).trace =
      [.ioTo "general" "receive_message"
        (builtTextMessage { username := "alice", room := "general" } "s1" 5 "")] :=
  ⟨rfl, rfl⟩

/-- C7 amended: the empty-body rejection exists only at the client boundary —
the client never emits `send_message` when the trimmed input is empty — while
the server-side handler performs no body validation: with a session, an
empty-bodied `send_message` is persisted, acknowledged and broadcast exactly
like any other message. -/
theorem emptyBody_client_boundary_only (st : ServerState) (store : StoreData)
    (sid : String) (now : Nat) (u : User)
    (hu : List.lookup sid st.users = some u) :
    (∀ input : String, input.trim = "" → clientSendAttempt input = none) ∧
    (sendMessageHandler st store sid "" now true).trace =
      [.persistAttempt (builtTextMessage u sid now ""),
       .appendLog (builtTextMessage u sid now ""),
       .ack (.success now),
       .emit (.ioTo u.room "receive_message" (builtTextMessage u sid now ""))] ∧
    (sendMessageHandler st store sid "" now true).store =
      addMessage store (builtTextMessage u sid now "") := by
  refine ⟨?_, ?_, ?_⟩
  · intro input h
    simp [clientSendAttempt, h]
  · unfold sendMessageHandler
    rw [hu]
    rfl
  · unfold sendMessageHandler
    rw [hu]
    rfl

/-- Witness for the amended C7 at a concrete input. -/
theorem emptyBody_client_boundary_only_witness :
    (sendMessageHandler stEx emptyStore "s1" "" 5 true).trace =
      [.persistAttempt (builtTextMessage { username := "alice", room := "general" } "s1" 5 ""),
       .appendLog (builtTextMessage { username := "alice", room := "general" } "s1" 5 ""),
       .ack (.success 5),
       .emit (.ioTo "general" "receive_message"
         (builtTextMessage { username := "alice", room := "general" } "s1" 5 ""))] :=
  (emptyBody_client_boundary_only stEx emptyStore "s1" 5
    { username := "alice", room := "general" } (by decide)).2.1

/-- C8: a `private_message` from a connection with a session builds a message
stamped `isPrivate = true` with the sender's current room as `roomId`; on
persistence success that message is stored; and delivery reaches exactly two
connections — the named recipient and the sender — and no other member of any
room. -/
theorem privateMessage_exact_delivery (st : ServerState) (store : StoreData)
    (sid toId body : String) (now : Nat) (ok : Bool) (u : User)
    (hu : List.lookup sid st.users = some u) (hne : toId ≠ sid) :
    (builtPrivateMessage u sid now body).isPrivate = true ∧
    (builtPrivateMessage u sid now body).roomId = u.room ∧
    (ok = true → (privateMessageHandler st store sid toId body now ok).store =
      addMessage store (builtPrivateMessage u sid now body)) ∧
    (∀ c, c ∈ traceRecipients st (privateMessageHandler st store sid toId body now ok).trace
        ↔ (c = toId ∨ c = sid)) ∧
    (∀ c, c ∈ roomMembers st u.room → c ≠ toId → c ≠ sid →
      c ∉ traceRecipients st (privateMessageHandler st store sid toId body now ok).trace) := by
  have hb : (toId == sid) = false := by simp [hne]
  have htr : traceRecipients st (privateMessageHandler st store sid toId body now ok).trace
      = [toId, sid] := by
    cases ok with
    | true =>
      have hh : privateMessageHandler st store sid toId body now true =
          { st := { st with messages := pushCap st.messages (builtPrivateMessage u sid now body) }
            store := addMessage store (builtPrivateMessage u sid now body)
            trace := [.persistAttempt (builtPrivateMessage u sid now body),
                      .emit (.socketTo sid toId "private_message" (builtPrivateMessage u sid now body)),
                      .emit (.socketSelf sid "private_message" (builtPrivateMessage u sid now body)),
                      .appendLog (builtPrivateMessage u sid now body)] } := by
        unfold privateMessageHandler
        rw [hu]
        rfl
      rw [hh]
      simp [traceRecipients, emittedEvents, recipients, hb]
    | false =>
      have hh : privateMessageHandler st store sid toId body now false =
          { st := st, store := store
            trace := [.persistAttempt (builtPrivateMessage u sid now body),
                      .emit (.socketTo sid toId "private_message" (builtPrivateMessage u sid now body)),
                      .emit (.socketSelf sid "private_message" (builtPrivateMessage u sid now body))] } := by
        unfold privateMessageHandler
        rw [hu]
        rfl
      rw [hh]
      simp [traceRecipients, emittedEvents, recipients, hb]
  refine ⟨rfl, rfl, ?_, ?_, ?_⟩
  · intro hok
    subst hok
    unfold privateMessageHandler
    rw [hu]
    rfl
  · intro c
    rw [htr]
    simp
  · intro c _ hc1 hc2
    rw [htr]
    simp [hc1, hc2]

/-- A concrete state with "bob" (s1) and "carol" (s3) in room1 and "alice"
(s2) in room2, for the C8 witness. -/
def stEx2 : ServerState :=
  { users := [("s1", { username := "bob", room := "room1" }),
              ("s2", { username := "alice", room := "room2" }),
              ("s3", { username := "carol", room := "room1" })]
    rooms := [("room1", [("s1", { username := "bob", room := "room1" }),
                         ("s3", { username := "carol", room := "room1" })]),
              ("room2", [("s2", { username := "alice", room := "room2" })])]
    typingUsers := []
    messages := [] }

/-- Witness for C8: bob privately messages alice across rooms; alice and bob
receive it, carol (bob's room-mate) does not. -/
theorem privateMessage_exact_delivery_witness :
    "s2" ∈ traceRecipients stEx2
      (privateMessageHandler stEx2 emptyStore "s1" "s2" "psst" 7 true).trace ∧
    "s1" ∈ traceRecipients stEx2
      (privateMessageHandler stEx2 emptyStore "s1" "s2" "psst" 7 true).trace ∧
    "s3" ∉ traceRecipients stEx2
      (privateMessageHandler stEx2 emptyStore "s1" "s2" "psst" 7 true).trace :=
  ⟨((privateMessage_exact_delivery stEx2 emptyStore "s1" "s2" "psst" 7 true
      { username := "bob", room := "room1" } (by decide) (by decide)).2.2.2.1 "s2").mpr
      (Or.inl rfl),
   ((privateMessage_exact_delivery stEx2 emptyStore "s1" "s2" "psst" 7 true
      { username := "bob", room := "room1" } (by decide) (by decide)).2.2.2.1 "s1").mpr
      (Or.inr rfl),
   (privateMessage_exact_delivery stEx2 emptyStore "s1" "s2" "psst" 7 true
      { username := "bob", room := "room1" } (by decide) (by decide)).2.2.2.2 "s3"
      (by decide) (by decide) (by decide)⟩

/-- The kept-message predicate, as the claim words it: roomId equals the
requested one (a missing — i.e. empty — roomId counting as the default room
"general"), and, when a search string is given, the body or sender name
contains it case-insensitively. -/
def claimKept (roomId : String) (search : Option String) (m : Message) : Bool :=
  matchesRoom roomId m &&
  (match search with
   | none => true
   | some s => matchesSearch s m)

theorem queryMessages_eq (msgs : List Message) (roomId : String) (lim off : Nat)
    (search : Option String) (hr : roomId ≠ "") (hs : search ≠ some "") :
    queryMessages msgs roomId lim off search =
      { messages := (((msgs.filter (claimKept roomId search)).insertionSort
          byTimestampDesc).drop off).take lim
        total := (msgs.filter (claimKept roomId search)).length
        hasMore := decide (off + lim <
          (msgs.filter (claimKept roomId search)).length) } := by
  have hrb : (roomId == "") = false := by simp [hr]
  unfold queryMessages
  cases search with
  | none =>
    have hF : msgs.filter (matchesRoom roomId) =
        msgs.filter (claimKept roomId none) := by
      apply List.filter_congr
      intro m _
      simp [claimKept]
    simp only [hrb, Bool.false_eq_true, if_false]
    rw [hF]
  | some s =>
    have hsne : s ≠ "" := by
      intro e
      exact hs (by rw [e])
    have hsb : (s == "") = false := by simp [hsne]
    have hF : (msgs.filter (matchesRoom roomId)).filter (matchesSearch s) =
        msgs.filter (claimKept roomId (some s)) := by
      rw [List.filter_filter]
      apply List.filter_congr
      intro m _
      simp [claimKept, Bool.and_comm]
    simp only [hrb, hsb, Bool.false_eq_true, if_false]
    rw [hF]

/-- C4: for a (non-empty) requested roomId and an optional (non-empty) search
string, `GET /api/messages` keeps exactly the messages of that room (an
absent stored roomId counting as "general"), further filters by
case-insensitive substring of body or sender name when a search is given,
sorts descending by timestamp, returns the slice [offset, offset+limit), and
reports hasMore exactly when offset+limit < filteredTotal. -/
theorem queryMessages_spec (msgs : List Message) (roomId : String)
    (lim off : Nat) (search : Option String)
    (hr : roomId ≠ "") (hs : search ≠ some "") :
    (queryMessages msgs roomId lim off search).messages =
      (((msgs.filter (claimKept roomId search)).insertionSort
        byTimestampDesc).drop off).take lim ∧
    List.Sorted byTimestampDesc (queryMessages msgs roomId lim off search).messages ∧
    (∀ m ∈ (queryMessages msgs roomId lim off search).messages,
      (m.roomId = roomId ∨ (m.roomId = "" ∧ roomId = "general")) ∧
      (∀ s, search = some s →
        (strIncludes m.message.toLower s.toLower ||
         strIncludes m.sender.toLower s.toLower) = true)) ∧
    (queryMessages msgs roomId lim off search).total =
      (msgs.filter (claimKept roomId search)).length ∧
    ((queryMessages msgs roomId lim off search).hasMore = true ↔
      off + lim < (msgs.filter (claimKept roomId search)).length) := by
  rw [queryMessages_eq msgs roomId lim off search hr hs]
  refine ⟨rfl, ?_, ?_, rfl, ?_⟩
  · exact List.Pairwise.sublist
      ((List.take_sublist _ _).trans (List.drop_sublist _ _))
      (List.sorted_insertionSort byTimestampDesc _)
  · intro m hm
    have hm2 : m ∈ (msgs.filter (claimKept roomId search)).insertionSort
        byTimestampDesc :=
      ((List.take_sublist _ _).trans (List.drop_sublist _ _)).subset hm
    have hm3 : m ∈ msgs.filter (claimKept roomId search) :=
      (List.perm_insertionSort byTimestampDesc _).mem_iff.mp hm2
    obtain ⟨_, hkept⟩ := List.mem_filter.mp hm3
    simp only [claimKept, Bool.and_eq_true] at hkept
    obtain ⟨hroom, hsrch⟩ := hkept
    constructor
    · simpa [matchesRoom, Bool.or_eq_true, Bool.and_eq_true, beq_iff_eq]
        using hroom
    · intro s hs'
      rw [hs'] at hsrch
      exact hsrch
  · simp

/-- A small concrete retained log for the C4 witness: two messages of room
"general" (one via the missing-roomId default), one of another room. -/
def demoMsgs : List Message :=
  [ { id := 1, sender := "alice", senderId := "s1", roomId := "general",
      timestamp := 1, message := "hello" },
    { id := 2, sender := "bob", senderId := "s2", roomId := "room2",
      timestamp := 2, message := "yo" },
    { id := 3, sender := "alice", senderId := "s1", roomId := "",
      timestamp := 3, message := "old style" } ]

/-- Witness for C4 at a concrete query. -/
theorem queryMessages_spec_witness :
    (queryMessages demoMsgs "general" 10 0 none).total = 2 :=
  (queryMessages_spec demoMsgs "general" 10 0 none (by decide)
      (by decide)).2.2.2.1.trans (by decide)

theorem updateFirst_of_find?_eq_self {α : Type} {p : α → Bool} {f : α → α}
    {l : List α} {m : α} (hm : l.find? p = some m) (hf : f m = m) :
    updateFirst p f l = l := by
  induction l with
  | nil => simp at hm
  | cons x t ih =>
    cases hx : p x with
    | true =>
      rw [List.find?_cons_of_pos t hx] at hm
      have hxm : x = m := by injection hm
      subst hxm
      simp [updateFirst, hx, hf]
    | false =>
      rw [List.find?_cons_of_neg t (by simp [hx])] at hm
      simp [updateFirst, hx, ih hm]

theorem find?_updateFirst {α : Type} {p : α → Bool} {f : α → α}
    {l : List α} {m : α} (hm : l.find? p = some m) (hp : p (f m) = p m) :
    (updateFirst p f l).find? p = some (f m) := by
  induction l with
  | nil => simp at hm
  | cons x t ih =>
    cases hx : p x with
    | true =>
      rw [List.find?_cons_of_pos t hx] at hm
      have hxm : x = m := by injection hm
      subst hxm
      have hfx : p (f x) = true := by rw [hp, hx]
      simp only [updateFirst, hx, if_true]
      rw [List.find?_cons_of_pos t hfx]
    | false =>
      rw [List.find?_cons_of_neg t (by simp [hx])] at hm
      simp only [updateFirst, hx, Bool.false_eq_true, if_false]
      rw [List.find?_cons_of_neg _ (by simp [hx])]
      exact ih hm

theorem updateFirst_updateFirst {α : Type} {p : α → Bool} {f g : α → α}
    {l : List α} {m : α} (hm : l.find? p = some m) (hp : p (f m) = p m)
    (hg : g (f m) = m) : updateFirst p g (updateFirst p f l) = l := by
  induction l with
  | nil => simp at hm
  | cons x t ih =>
    cases hx : p x with
    | true =>
      rw [List.find?_cons_of_pos t hx] at hm
      have hxm : x = m := by injection hm
      subst hxm
      have hfx : p (f x) = true := by rw [hp, hx]
      simp [updateFirst, hx, hfx, hg]
    | false =>
      rw [List.find?_cons_of_neg t (by simp [hx])] at hm
      simp [updateFirst, hx, ih hm]

/-- A store holding one message that already carries reaction "like" by user
"u1", for the C5 counterexample. -/
def rxStore : StoreData :=
  { messages := [{ id := 1, sender := "alice", senderId := "s1",
                   roomId := "general", timestamp := 1, message := "hi",
                   reactions := [("like", ["u1"])] }]
    readReceipts := []
    rooms := ["general"] }

/-- C5 counterexample: when the (symbol, user) pair is already present,
`addReaction` is a no-op but `removeReaction` then deletes the pre-existing
reaction, so the add-then-remove round trip does **not** restore the prior
reaction state. -/
theorem reactions_roundTrip_counterexample :
    removeReaction (addReaction rxStore "1" "u1" "like") "1" "u1" "like" ≠ rxStore ∧
    addReaction rxStore "1" "u1" "like" = rxStore := by
  constructor
  · decide
  · decide

/-- C5 amended: `addReaction` of an already-present (symbol, user) pair is a
no-op, and `removeReaction` of an absent pair is a no-op provided the
symbol's entry is absent or nonempty; the add-then-remove round trip
restores the prior reaction state exactly **provided the pair was not
already present** (and the symbol's entry, if present, is nonempty).
For an already-present pair, the round trip removes the pre-existing
reaction instead (see the counterexample). -/
theorem reactions_roundTrip_amended (d : StoreData) (mid uid sym : String)
    (m : Message) (hm : d.messages.find? (idMatches mid) = some m) :
    ((∀ l, List.lookup sym m.reactions = some l → uid ∉ l ∧ l ≠ []) →
      removeReaction (addReaction d mid uid sym) mid uid sym = d) ∧
    (uid ∈ (List.lookup sym m.reactions).getD [] →
      addReaction d mid uid sym = d) ∧
    ((∀ l, List.lookup sym m.reactions = some l → uid ∉ l ∧ l ≠ []) →
      removeReaction d mid uid sym = d) := by
  refine ⟨?_, ?_, ?_⟩
  · -- round trip
    intro hyp
    cases hl : List.lookup sym m.reactions with
    | none =>
      have hnotmem : sym ∉ Assoc.keys m.reactions :=
        Assoc.not_mem_keys_of_lookup_eq_none hl
      have hadd : addReaction d mid uid sym =
          { d with messages := (updateFirst (idMatches mid)
              (fun x => { x with reactions := m.reactions ++ [(sym, [uid])] })
              d.messages) } := by
        unfold addReaction
        simp only [hm, hl, Option.getD_none, List.contains_nil,
          Bool.false_eq_true, if_false, List.nil_append]
        rw [Assoc.upsert_of_not_mem_keys _ hnotmem]
      rw [hadd]
      have hfind1 : (updateFirst (idMatches mid)
          (fun x => { x with reactions := m.reactions ++ [(sym, [uid])] })
          d.messages).find? (idMatches mid) =
          some { m with reactions := m.reactions ++ [(sym, [uid])] } :=
        find?_updateFirst hm rfl
      have hlook1 : List.lookup sym (m.reactions ++ [(sym, [uid])]) =
          some [uid] := by
        rw [← Assoc.upsert_of_not_mem_keys _ hnotmem]
        exact Assoc.lookup_upsert_self sym [uid] m.reactions
      have hfil : ([uid].filter (fun u => u != uid)) = [] := by simp
      unfold removeReaction
      simp only [hfind1, hlook1, hfil, List.isEmpty_nil, if_true]
      rw [Assoc.eraseKey_append_self _ hnotmem]
      rw [updateFirst_updateFirst hm rfl rfl]
    | some cur =>
      obtain ⟨huid, hne⟩ := hyp cur hl
      have hcontains : cur.contains uid = false := by
        cases hc : cur.contains uid with
        | false => rfl
        | true => exact absurd (List.mem_of_elem_eq_true hc) huid
      have hadd : addReaction d mid uid sym =
          { d with messages := (updateFirst (idMatches mid)
              (fun x => { x with reactions := (Assoc.upsert sym (cur ++ [uid]) m.reactions) }) d.messages) } := by
        unfold addReaction
        simp only [hm, hl, Option.getD_some, hcontains, Bool.false_eq_true,
          if_false]
      rw [hadd]
      have hfind1 : (updateFirst (idMatches mid)
          (fun x => { x with reactions := Assoc.upsert sym (cur ++ [uid]) m.reactions })
          d.messages).find? (idMatches mid) =
          some { m with reactions := Assoc.upsert sym (cur ++ [uid]) m.reactions } :=
        find?_updateFirst hm rfl
      have hlook1 : List.lookup sym (Assoc.upsert sym (cur ++ [uid]) m.reactions) =
          some (cur ++ [uid]) := Assoc.lookup_upsert_self sym (cur ++ [uid]) m.reactions
      have hfil : ((cur ++ [uid]).filter (fun u => u != uid)) = cur := by
        rw [List.filter_append]
        have h1 : cur.filter (fun u => u != uid) = cur := by
          apply List.filter_eq_self.mpr
          intro a ha
          simp
          exact fun e => huid (e ▸ ha)
        have h2 : ([uid].filter (fun u => u != uid)) = [] := by simp
        rw [h1, h2, List.append_nil]
      have hemp : cur.isEmpty = false := by
        cases cur with
        | nil => exact absurd rfl hne
        | cons a t => rfl
      have hrs : Assoc.upsert sym cur (Assoc.upsert sym (cur ++ [uid]) m.reactions)
          = m.reactions := by
        rw [Assoc.upsert_upsert, Assoc.upsert_of_lookup_eq hl]
      unfold removeReaction
      simp only [hfind1, hlook1, hfil, hemp, Bool.false_eq_true, if_false, hrs]
      rw [updateFirst_updateFirst hm rfl rfl]
  · -- add of an already-present pair is a no-op
    intro hmem
    cases hl : List.lookup sym m.reactions with
    | none =>
      rw [hl] at hmem
      simp at hmem
    | some cur =>
      rw [hl] at hmem
      simp only [Option.getD_some] at hmem
      have hcontains : cur.contains uid = true :=
        List.elem_eq_true_of_mem hmem
      unfold addReaction
      simp only [hm, hl, Option.getD_some, hcontains, if_true]
      rw [Assoc.upsert_of_lookup_eq hl]
      rw [updateFirst_of_find?_eq_self hm rfl]
  · -- remove of an absent pair is a no-op
    intro hyp
    cases hl : List.lookup sym m.reactions with
    | none =>
      unfold removeReaction
      simp only [hm, hl]
    | some l =>
      obtain ⟨huid, hne⟩ := hyp l hl
      have hfil : l.filter (fun u => u != uid) = l := by
        apply List.filter_eq_self.mpr
        intro a ha
        simp
        exact fun e => huid (e ▸ ha)
      have hemp : l.isEmpty = false := by
        cases l with
        | nil => exact absurd rfl hne
        | cons a t => rfl
      unfold removeReaction
      simp only [hm, hl, hfil, hemp, Bool.false_eq_true, if_false]
      rw [Assoc.upsert_of_lookup_eq hl]
      rw [updateFirst_of_find?_eq_self hm rfl]

/-- Witness for the amended C5: adding then removing a fresh reaction pair on
a message that already carries a different user's reaction restores the
store exactly. -/
theorem reactions_roundTrip_amended_witness :
    removeReaction (addReaction rxStore "1" "u2" "like") "1" "u2" "like" = rxStore :=
  (reactions_roundTrip_amended rxStore "1" "u2" "like"
      { id := 1, sender := "alice", senderId := "s1", roomId := "general",
        timestamp := 1, message := "hi", reactions := [("like", ["u1"])] }
      (by decide)).1
    (by decide)

/-! ### The one-room-membership invariant (C9) -/

/-- Every room's member map, as stored, has no duplicate connection keys
(the JS-object invariant). -/
def MemberMapsNodup (st : ServerState) : Prop :=
  ∀ r rm, List.lookup r st.rooms = some rm → (Assoc.keys rm).Nodup

/-- Every room membership is backed by a session whose current room is that
room. -/
def MemberHasSession (st : ServerState) : Prop :=
  ∀ sid r, memberOf st r sid = true →
    ∃ u, List.lookup sid st.users = some u ∧ u.room = r

def Inv (st : ServerState) : Prop := MemberMapsNodup st ∧ MemberHasSession st

theorem inv_step (st : ServerState) (e : Ev) (hInv : Inv st)
    (hfresh : joinFresh st e = true) : Inv (step st e) := by
  obtain ⟨hN, hS⟩ := hInv
  cases e with
  | userJoin sid uname room =>
    have hfr : List.lookup sid st.users = none := by
      simp only [joinFresh] at hfresh
      exact Option.isNone_iff_eq_none.mp hfresh
    constructor
    · intro r rm hr
      by_cases hrr : r = room
      · subst hrr
        rw [show (step st (.userJoin sid uname r)).rooms =
            Assoc.upsert r (Assoc.upsert sid { username := uname, room := r }
              ((List.lookup r st.rooms).getD [])) st.rooms from rfl,
          Assoc.lookup_upsert_self] at hr
        have hrm := Option.some.inj hr
        subst hrm
        apply Assoc.keys_upsert_nodup
        cases hb : List.lookup r st.rooms with
        | none => simp [Assoc.keys]
        | some b => simpa using hN r b hb
      · rw [show (step st (.userJoin sid uname room)).rooms =
            Assoc.upsert room (Assoc.upsert sid { username := uname, room := room }
              ((List.lookup room st.rooms).getD [])) st.rooms from rfl,
          Assoc.lookup_upsert_ne _ _ hrr] at hr
        exact hN r rm hr
    · intro sid' r hmem
      have hmem' : (List.lookup sid'
          ((List.lookup r (Assoc.upsert room
            (Assoc.upsert sid { username := uname, room := room }
              ((List.lookup room st.rooms).getD [])) st.rooms)).getD [])).isSome
          = true := hmem
      show ∃ u, List.lookup sid' (Assoc.upsert sid
          { username := uname, room := room } st.users) = some u ∧ u.room = r
      by_cases hrr : r = room
      · subst hrr
        rw [Assoc.lookup_upsert_self] at hmem'
        simp only [Option.getD_some] at hmem'
        by_cases hsid : sid' = sid
        · subst hsid
          exact ⟨{ username := uname, room := r },
            by rw [Assoc.lookup_upsert_self], rfl⟩
        · rw [Assoc.lookup_upsert_ne _ _ hsid] at hmem'
          have hmem0 : memberOf st r sid' = true := hmem'
          obtain ⟨u', hu', hur⟩ := hS sid' r hmem0
          refine ⟨u', ?_, hur⟩
          rw [Assoc.lookup_upsert_ne _ _ hsid]
          exact hu'
      · rw [Assoc.lookup_upsert_ne _ _ hrr] at hmem'
        have hmem0 : memberOf st r sid' = true := hmem'
        obtain ⟨u', hu', hur⟩ := hS sid' r hmem0
        by_cases hsid : sid' = sid
        · subst hsid
          rw [hfr] at hu'
          exact absurd hu' (by simp)
        · refine ⟨u', ?_, hur⟩
          rw [Assoc.lookup_upsert_ne _ _ hsid]
          exact hu'
  | switchRoom sid newRoom =>
    cases hl : List.lookup sid st.users with
    | none =>
      have hstep : step st (.switchRoom sid newRoom) = st := by
        unfold step
        simp only [hl]
      rw [hstep]
      exact ⟨hN, hS⟩
    | some u =>
      have hstep : step st (.switchRoom sid newRoom) = { st with
          users := Assoc.upsert sid { u with room := newRoom } st.users
          rooms := Assoc.upsert newRoom
            (Assoc.upsert sid { u with room := newRoom }
              ((List.lookup newRoom
                (Assoc.updateVal u.room (Assoc.eraseKey sid) st.rooms)).getD []))
            (Assoc.updateVal u.room (Assoc.eraseKey sid) st.rooms) } := by
        unfold step
        simp only [hl]
      rw [hstep]
      constructor
      · intro r rm hr
        by_cases hrn : r = newRoom
        · subst hrn
          rw [show ({ st with
              users := Assoc.upsert sid { u with room := r } st.users
              rooms := Assoc.upsert r
                (Assoc.upsert sid { u with room := r }
                  ((List.lookup r
                    (Assoc.updateVal u.room (Assoc.eraseKey sid) st.rooms)).getD []))
                (Assoc.updateVal u.room (Assoc.eraseKey sid) st.rooms) } :
              ServerState).rooms = Assoc.upsert r
                (Assoc.upsert sid { u with room := r }
                  ((List.lookup r
                    (Assoc.updateVal u.room (Assoc.eraseKey sid) st.rooms)).getD []))
                (Assoc.updateVal u.room (Assoc.eraseKey sid) st.rooms) from rfl,
            Assoc.lookup_upsert_self] at hr
          have hrm := Option.some.inj hr
          subst hrm
          apply Assoc.keys_upsert_nodup
          by_cases hru : r = u.room
          · rw [hru, Assoc.lookup_updateVal_self]
            cases hob : List.lookup u.room st.rooms with
            | none => simp [Assoc.keys]
            | some b =>
              simp only [Option.map_some', Option.getD_some]
              exact Assoc.keys_eraseKey_nodup (hN u.room b hob)
          · rw [Assoc.lookup_updateVal_ne _ _ hru]
            cases hob : List.lookup r st.rooms with
            | none => simp [Assoc.keys]
            | some b => simpa using hN r b hob
        · rw [show ({ st with
              users := Assoc.upsert sid { u with room := newRoom } st.users
              rooms := Assoc.upsert newRoom
                (Assoc.upsert sid { u with room := newRoom }
                  ((List.lookup newRoom
                    (Assoc.updateVal u.room (Assoc.eraseKey sid) st.rooms)).getD []))
                (Assoc.updateVal u.room (Assoc.eraseKey sid) st.rooms) } :
              ServerState).rooms = Assoc.upsert newRoom
                (Assoc.upsert sid { u with room := newRoom }
                  ((List.lookup newRoom
                    (Assoc.updateVal u.room (Assoc.eraseKey sid) st.rooms)).getD []))
                (Assoc.updateVal u.room (Assoc.eraseKey sid) st.rooms) from rfl,
            Assoc.lookup_upsert_ne _ _ hrn] at hr
          by_cases hru : r = u.room
          · subst hru
            rw [Assoc.lookup_updateVal_self] at hr
            cases hob : List.lookup u.room st.rooms with
            | none =>
              rw [hob] at hr
              simp at hr
            | some b =>
              rw [hob] at hr
              simp only [Option.map_some', Option.some.injEq] at hr
              subst hr
              exact Assoc.keys_eraseKey_nodup (hN u.room b hob)
          · rw [Assoc.lookup_updateVal_ne _ _ hru] at hr
            exact hN r rm hr
      · intro sid' r hmem
        have hmem' : (List.lookup sid' ((List.lookup r (Assoc.upsert newRoom
            (Assoc.upsert sid { u with room := newRoom }
              ((List.lookup newRoom
                (Assoc.updateVal u.room (Assoc.eraseKey sid) st.rooms)).getD []))
            (Assoc.updateVal u.room (Assoc.eraseKey sid) st.rooms))).getD [])).isSome
            = true := hmem
        show ∃ w, List.lookup sid'
            (Assoc.upsert sid { u with room := newRoom } st.users) = some w ∧
          w.room = r
        by_cases hrn : r = newRoom
        · subst hrn
          rw [Assoc.lookup_upsert_self] at hmem'
          simp only [Option.getD_some] at hmem'
          by_cases hsid : sid' = sid
          · subst hsid
            exact ⟨{ u with room := r }, by rw [Assoc.lookup_upsert_self], rfl⟩
          · rw [Assoc.lookup_upsert_ne _ _ hsid] at hmem'
            by_cases hru : r = u.room
            · rw [hru, Assoc.lookup_updateVal_self] at hmem'
              cases hob : List.lookup u.room st.rooms with
              | none =>
                rw [hob] at hmem'
                simp at hmem'
              | some b =>
                rw [hob] at hmem'
                simp only [Option.map_some', Option.getD_some] at hmem'
                rw [Assoc.lookup_eraseKey_ne _ hsid] at hmem'
                have hmem0 : memberOf st u.room sid' = true := by
                  unfold memberOf
                  rw [hob]
                  exact hmem'
                obtain ⟨w, hw, hwr⟩ := hS sid' u.room hmem0
                refine ⟨w, ?_, ?_⟩
                · rw [Assoc.lookup_upsert_ne _ _ hsid]
                  exact hw
                · rw [hru]
                  exact hwr
            · rw [Assoc.lookup_updateVal_ne _ _ hru] at hmem'
              have hmem0 : memberOf st r sid' = true := hmem'
              obtain ⟨w, hw, hwr⟩ := hS sid' r hmem0
              refine ⟨w, ?_, hwr⟩
              rw [Assoc.lookup_upsert_ne _ _ hsid]
              exact hw
        · rw [Assoc.lookup_upsert_ne _ _ hrn] at hmem'
          by_cases hru : r = u.room
          · subst hru
            rw [Assoc.lookup_updateVal_self] at hmem'
            cases hob : List.lookup u.room st.rooms with
            | none =>
              rw [hob] at hmem'
              simp at hmem'
            | some b =>
              rw [hob] at hmem'
              simp only [Option.map_some', Option.getD_some] at hmem'
              by_cases hsid : sid' = sid
              · subst hsid
                rw [Assoc.lookup_eraseKey_self (hN u.room b hob)] at hmem'
                simp at hmem'
              · rw [Assoc.lookup_eraseKey_ne _ hsid] at hmem'
                have hmem0 : memberOf st u.room sid' = true := by
                  unfold memberOf
                  rw [hob]
                  exact hmem'
                obtain ⟨w, hw, hwr⟩ := hS sid' u.room hmem0
                refine ⟨w, ?_, hwr⟩
                rw [Assoc.lookup_upsert_ne _ _ hsid]
                exact hw
          · rw [Assoc.lookup_updateVal_ne _ _ hru] at hmem'
            have hmem0 : memberOf st r sid' = true := hmem'
            obtain ⟨w, hw, hwr⟩ := hS sid' r hmem0
            by_cases hsid : sid' = sid
            · subst hsid
              rw [hl] at hw
              have huw : u = w := by injection hw
              rw [← huw] at hwr
              exact absurd hwr.symm hru
            · refine ⟨w, ?_, hwr⟩
              rw [Assoc.lookup_upsert_ne _ _ hsid]
              exact hw
  | disconnect sid =>
    cases hl : List.lookup sid st.users with
    | none =>
      have hstep : step st (.disconnect sid) = { st with
          users := Assoc.eraseKey sid st.users
          typingUsers := Assoc.eraseKey sid st.typingUsers } := by
        unfold step
        simp only [hl]
      rw [hstep]
      constructor
      · intro r rm hr
        exact hN r rm hr
      · intro sid' r hmem
        have hmem0 : memberOf st r sid' = true := hmem
        obtain ⟨w, hw, hwr⟩ := hS sid' r hmem0
        by_cases hsid : sid' = sid
        · subst hsid
          rw [hl] at hw
          exact absurd hw (by simp)
        · refine ⟨w, ?_, hwr⟩
          show List.lookup sid' (Assoc.eraseKey sid st.users) = some w
          rw [Assoc.lookup_eraseKey_ne _ hsid]
          exact hw
    | some u =>
      have hstep : step st (.disconnect sid) = { st with
          rooms := Assoc.updateVal u.room (Assoc.eraseKey sid) st.rooms
          users := Assoc.eraseKey sid st.users
          typingUsers := Assoc.eraseKey sid st.typingUsers } := by
        unfold step
        simp only [hl]
      rw [hstep]
      constructor
      · intro r rm hr
        by_cases hru : r = u.room
        · subst hru
          rw [show ({ st with
              rooms := Assoc.updateVal u.room (Assoc.eraseKey sid) st.rooms
              users := Assoc.eraseKey sid st.users
              typingUsers := Assoc.eraseKey sid st.typingUsers } :
              ServerState).rooms =
              Assoc.updateVal u.room (Assoc.eraseKey sid) st.rooms from rfl,
            Assoc.lookup_updateVal_self] at hr
          cases hob : List.lookup u.room st.rooms with
          | none =>
            rw [hob] at hr
            simp at hr
          | some b =>
            rw [hob] at hr
            simp only [Option.map_some', Option.some.injEq] at hr
            subst hr
            exact Assoc.keys_eraseKey_nodup (hN u.room b hob)
        · rw [show ({ st with
              rooms := Assoc.updateVal u.room (Assoc.eraseKey sid) st.rooms
              users := Assoc.eraseKey sid st.users
              typingUsers := Assoc.eraseKey sid st.typingUsers } :
              ServerState).rooms =
              Assoc.updateVal u.room (Assoc.eraseKey sid) st.rooms from rfl,
            Assoc.lookup_updateVal_ne _ _ hru] at hr
          exact hN r rm hr
      · intro sid' r hmem
        have hmem' : (List.lookup sid' ((List.lookup r
            (Assoc.updateVal u.room (Assoc.eraseKey sid) st.rooms)).getD
              [])).isSome = true := hmem
        show ∃ w, List.lookup sid' (Assoc.eraseKey sid st.users) = some w ∧
          w.room = r
        by_cases hru : r = u.room
        · subst hru
          rw [Assoc.lookup_updateVal_self] at hmem'
          cases hob : List.lookup u.room st.rooms with
          | none =>
            rw [hob] at hmem'
            simp at hmem'
          | some b =>
            rw [hob] at hmem'
            simp only [Option.map_some', Option.getD_some] at hmem'
            by_cases hsid : sid' = sid
            · subst hsid
              rw [Assoc.lookup_eraseKey_self (hN u.room b hob)] at hmem'
              simp at hmem'
            · rw [Assoc.lookup_eraseKey_ne _ hsid] at hmem'
              have hmem0 : memberOf st u.room sid' = true := by
                unfold memberOf
                rw [hob]
                exact hmem'
              obtain ⟨w, hw, hwr⟩ := hS sid' u.room hmem0
              refine ⟨w, ?_, hwr⟩
              rw [Assoc.lookup_eraseKey_ne _ hsid]
              exact hw
        · rw [Assoc.lookup_updateVal_ne _ _ hru] at hmem'
          have hmem0 : memberOf st r sid' = true := hmem'
          obtain ⟨w, hw, hwr⟩ := hS sid' r hmem0
          by_cases hsid : sid' = sid
          · subst hsid
            rw [hl] at hw
            have huw : u = w := by injection hw
            rw [← huw] at hwr
            exact absurd hwr.symm hru
          · refine ⟨w, ?_, hwr⟩
            rw [Assoc.lookup_eraseKey_ne _ hsid]
            exact hw

theorem inv_run (evs : List Ev) :
    ∀ st : ServerState, Inv st → goodFrom st evs = true →
      Inv (evs.foldl step st) := by
  induction evs with
  | nil =>
    intro st hInv _
    exact hInv
  | cons e t ih =>
    intro st hInv hg
    simp only [goodFrom, Bool.and_eq_true] at hg
    exact ih (step st e) (inv_step st e hInv hg.1) hg.2

theorem inv_initial : Inv {} := by
  constructor
  · intro r rm hr
    simp [List.lookup] at hr
  · intro sid r hmem
    simp [memberOf, List.lookup] at hmem

/-- C9 counterexample: a connection that emits `user_join` twice (for two
different rooms) without disconnecting ends up in both rooms' member sets —
`user_join` never removes an existing membership. -/
theorem memberUniqueness_counterexample :
    memberOf (run [.userJoin "c" "alice" "r1", .userJoin "c" "alice" "r2"]) "r1" "c" = true ∧
    memberOf (run [.userJoin "c" "alice" "r1", .userJoin "c" "alice" "r2"]) "r2" "c" = true ∧
    ("r1" : String) ≠ "r2" := by
  refine ⟨by decide, by decide, by decide⟩

/-- C9 amended: in every state reachable by a sequence of `user_join`,
`switch_room` and `disconnect` events in which each `user_join` comes from a
connection without a live session (the situation the code is written for),
every connection id appears in at most one room's member set. A repeated
`user_join` from a live connection violates the invariant (see the
counterexample). -/
theorem memberUniqueness_goodTraces (evs : List Ev)
    (hg : goodFrom {} evs = true) :
    ∀ sid r1 r2, memberOf (run evs) r1 sid = true →
      memberOf (run evs) r2 sid = true → r1 = r2 := by
  have hInv : Inv (run evs) := inv_run evs {} inv_initial hg
  intro sid r1 r2 h1 h2
  obtain ⟨u1, hu1, hr1⟩ := hInv.2 sid r1 h1
  obtain ⟨u2, hu2, hr2⟩ := hInv.2 sid r2 h2
  rw [hu1] at hu2
  have hu12 : u1 = u2 := by injection hu2
  rw [← hr1, ← hr2, hu12]

/-- A well-behaved concrete trace for the C9 witness: join, switch, a second
user joining, and a disconnect-rejoin. -/
def goodTraceEx : List Ev :=
  [.userJoin "c" "alice" "r1", .switchRoom "c" "r2",
   .userJoin "d" "bob" "r1", .disconnect "c", .userJoin "c" "alice" "r1"]

/-- Witness for the amended C9 on a concrete well-behaved trace. -/
theorem memberUniqueness_goodTraces_witness :
    ¬ (memberOf (run goodTraceEx) "r1" "c" = true ∧
       memberOf (run goodTraceEx) "r2" "c" = true) :=
  fun h =>
    absurd (memberUniqueness_goodTraces goodTraceEx (by decide) "c" "r1" "r2"
      h.1 h.2) (by decide)

end ChatServer
